import Mathlib

/-!
Verification of the peer-mesh chat engine in `src/views/Chat.vue`.

The embedding below translates the script section of `Chat.vue` into Lean:
the `Message` and `Participant` records, the frame handler `handlePeerData`,
the connection-lifecycle handlers (`onOpenFrames`, `closeHandler`,
`handleDisconnect`), the local send path (`sendMessage`), and the
idle-session monitor (`timeoutCheckTick`).  JavaScript's stable
`Array.prototype.sort` is modelled by `List.mergeSort`, which is a stable
merge sort; millisecond clocks (`Date.now()`) are explicit `Nat` arguments.
-/

namespace ChatP2P

/-- Message record, from the `Message` TS interface in `Chat.vue`. -/
structure Message where
  id : String
  sender : String
  senderId : String
  content : String
  timestamp : Nat
deriving DecidableEq, Repr

/-- Participant record, from the `Participant` TS interface in `Chat.vue`. -/
structure Participant where
  id : String
  username : String
  isConnected : Bool
deriving DecidableEq, Repr

/-- Comparator used for message ordering: the JS sort callback is
`(a, b) => a.timestamp - b.timestamp`, i.e. `a` stays before `b`
whenever `a.timestamp ≤ b.timestamp`. -/
def msgLe (a b : Message) : Bool :=
  a.timestamp ≤ b.timestamp

/-- The four application-level frame kinds of the sync protocol, plus the
default arm of the `switch` in `handlePeerData` (unknown types are ignored). -/
inductive Frame where
  | userInfo (id username : String)
  | initMessages (data : List Message)
  | initParticipants (data : List Participant)
  | newMessage (data : Message)
  | unknown
deriving DecidableEq, Repr

/-- `messages.value.some(m => m.id === x)` from `Chat.vue`. -/
def hasMsgId (l : List Message) (x : String) : Bool :=
  l.any fun m2 => m2.id == x

/-- `participants.value.some(p => p.id === x)` from `Chat.vue`. -/
def hasParticipantId (l : List Participant) (x : String) : Bool :=
  l.any fun p => p.id == x

/-- Shallow embedding of `handlePeerData(peerId, data)` (`Chat.vue` lines
201–239), acting on the `messages` and `participants` refs.  The `peerId`
argument is unused by the source function's body, as in the source. -/
def handlePeerData (peerId : String) (f : Frame)
    (msgs : List Message) (ps : List Participant) :
    List Message × List Participant :=
  match f with
  | .userInfo i u =>
    if hasParticipantId ps i then (msgs, ps)
    else (msgs, ps ++ [{ id := i, username := u, isConnected := true }])
  | .initMessages data =>
    let newMessages := data.filter fun m => ! hasMsgId msgs m.id
    ((msgs ++ newMessages).mergeSort msgLe, ps)
  | .initParticipants data =>
    let newParticipants := data.filter fun p => ! hasParticipantId ps p.id
    (msgs, ps ++ newParticipants)
  | .newMessage m =>
    if hasMsgId msgs m.id then (msgs, ps)
    else ((msgs ++ [m]).mergeSort msgLe, ps)
  | .unknown => (msgs, ps)

/-- List of message ids of a log. -/
def logIds (l : List Message) : List String :=
  l.map Message.id

/-- Entry of the `connections` record of `Chat.vue`, keyed by remote peer
address (`conn.peer`); `isOpen` is the transport's `conn.open` flag. -/
structure Conn where
  peerAddr : String
  isOpen : Bool
deriving DecidableEq, Repr

/-- Local state of one chat client: the refs declared at the top of
`Chat.vue` that the core handlers read or write.  Timestamps are
millisecond counts; `hasPeer` models `peer.value !== null` and
`peerDestroyed` models `peer.value.destroyed`. -/
structure ChatState where
  username : String
  message : String
  messages : List Message
  participants : List Participant
  connections : List Conn
  peerId : String
  isConnected : Bool
  hasPeer : Bool
  peerDestroyed : Bool
  lastActivityTime : Nat
deriving DecidableEq, Repr

/-- The Message literal built by `sendMessage` (`Chat.vue` lines 244–250):
`id` is the template string `peerId.value + "-" + Date.now()`, and
`timestamp` is `Date.now()` of the same send. -/
def mkLocalMessage (peerId username content : String) (now : Nat) : Message :=
  { id := peerId ++ "-" ++ Nat.repr now
    sender := username
    senderId := peerId
    content := content
    timestamp := now }

/-- JavaScript `String.prototype.trim`: strip leading and trailing
whitespace.  (Defined over the character list so that it evaluates by
kernel reduction.) -/
def jsTrim (s : String) : String :=
  ⟨((s.data.dropWhile Char.isWhitespace).reverse.dropWhile Char.isWhitespace).reverse⟩

/-- Shallow embedding of `sendMessage` (`Chat.vue` lines 241–268).  Returns
the updated state together with the `(remote address, frame)` pairs passed to
`conn.send`.  The guard is `if (!message.value.trim() || !isConnected.value)
return`, which sends nothing and changes nothing (the trimmed string is falsy
exactly when it is empty). -/
def sendMessage (s : ChatState) (now : Nat) : ChatState × List (String × Frame) :=
  if (jsTrim s.message).isEmpty || ! s.isConnected then (s, [])
  else
    let newMessage := mkLocalMessage s.peerId s.username s.message now
    ({ s with
        messages := s.messages ++ [newMessage]
        message := ""
        lastActivityTime := now },
      s.connections.map fun c => (c.peerAddr, Frame.newMessage newMessage))

/-- Whether handling a frame replaces the `messages.value` array reference
(as opposed to mutating the array in place).  Only the INIT_MESSAGES branch
executes `messages.value = [...]`; the NEW_MESSAGE branch uses in-place
`push`/`sort`.  This matters because `watch(messages, ...)` in `Chat.vue`
(line 61) watches a ref shallowly: Vue runs the callback only when the ref's
`.value` is replaced, not on in-place mutation (there is no `deep: true`). -/
def reassignsMessagesRef : Frame → Bool
  | .initMessages _ => true
  | _ => false

/-- Combined effect of the `conn.on('data')` callback: run
`handlePeerData`, then — only if the `messages` ref was reassigned — the
shallow watcher `watch(messages, () => lastActivityTime.value = Date.now())`
fires and stamps the session clock. -/
def receiveData (s : ChatState) (fromPeer : String) (f : Frame) (now : Nat) :
    ChatState :=
  let r := handlePeerData fromPeer f s.messages s.participants
  { s with
    messages := r.1
    participants := r.2
    lastActivityTime := if reassignsMessagesRef f then now else s.lastActivityTime }

/-- First-match update of the roster as done by the close handler:
`findIndex(p => p.id === addr)` followed by `participants.value[i].isConnected
= false` when the index exists. -/
def markDisconnected : List Participant → String → List Participant
  | [], _ => []
  | q :: rest, addr =>
    if q.id == addr then { q with isConnected := false } :: rest
    else q :: markDisconnected rest addr

/-- Shallow embedding of the `conn.on('close')` handler (`Chat.vue` lines
179–188): `delete connections.value[conn.peer]` and flag the matching roster
entry disconnected. -/
def closeHandler (s : ChatState) (peerAddr : String) : ChatState :=
  { s with
    connections := s.connections.filter fun c => c.peerAddr != peerAddr
    participants := markDisconnected s.participants peerAddr }

/-- Shallow embedding of `handleDisconnect` (`Chat.vue` lines 270–282).
Returns the new state, the list of peer addresses on which `conn.close()`
was invoked (only connections whose `open` flag is set), and whether
`peer.destroy()` was invoked (only when a peer exists and is not already
destroyed).  `conn.close()` clears the connection's `open` flag and
`peer.destroy()` sets `destroyed`, so the state records all flags cleared. -/
def handleDisconnect (s : ChatState) : ChatState × List String × Bool :=
  let closeCalls := (s.connections.filter Conn.isOpen).map Conn.peerAddr
  let destroyCall := s.hasPeer && ! s.peerDestroyed
  ({ s with
      connections := s.connections.map fun c => { c with isOpen := false }
      peerDestroyed := if s.hasPeer && ! s.peerDestroyed then true else s.peerDestroyed },
    closeCalls, destroyCall)

/-- Frames pushed by the `conn.on('open')` callback of `handleConnection`
(`Chat.vue` lines 148–173): always a USER_INFO frame with the local identity;
when the channel carries the `joinRoom` metadata flag, additionally the
INIT_MESSAGES and INIT_PARTICIPANTS backfill of the full local state. -/
def onOpenFrames (metadataJoinRoom : Bool) (localPeerId localUsername : String)
    (msgs : List Message) (ps : List Participant) : List Frame :=
  Frame.userInfo localPeerId localUsername ::
    (if metadataJoinRoom then [Frame.initMessages msgs, Frame.initParticipants ps]
     else [])

/-- The `joinRoom` metadata flag placed on the outbound connection by
`joinRoom()` (`Chat.vue` lines 129–135).  The transport (PeerJS) stores the
metadata passed to `connect` on the originating `DataConnection` object and
also delivers it to the receiving side, so the channel carries this flag at
BOTH endpoints: the joiner registers `handleConnection` on its own outbound
connection (line 138), whose `conn.metadata?.joinRoom` is this same value. -/
def joinRequestMetadataJoinRoom : Bool := true

/-- The idle threshold: `sessionTimeout = 15 * 60 * 1000` (`Chat.vue`
line 33). -/
def sessionTimeout : Nat := 15 * 60 * 1000

/-- The poll period of `setupTimeoutCheck`: `setInterval(..., 60000)`
(`Chat.vue` line 293). -/
def timeoutCheckIntervalMs : Nat := 60000

/-- One tick of the interval installed by `setupTimeoutCheck` (`Chat.vue`
lines 284–294): reads the clock, compares the elapsed time against the
threshold, and redirects home (ending the session) exactly when it is
exceeded; the state is returned untouched. -/
def timeoutCheckTick (s : ChatState) (now : Nat) : ChatState × Bool :=
  (s, decide (now - s.lastActivityTime > sessionTimeout))

/-- The core operations that can mutate the local state: receiving a frame,
the local send path, a channel close event, and session teardown. -/
inductive Op where
  | recv (fromPeer : String) (f : Frame) (now : Nat)
  | send (now : Nat)
  | channelClose (peerAddr : String)
  | teardown
deriving DecidableEq, Repr

/-- State component of each core operation. -/
def applyOp (s : ChatState) : Op → ChatState
  | .recv p f now => receiveData s p f now
  | .send now => (sendMessage s now).1
  | .channelClose p => closeHandler s p
  | .teardown => (handleDisconnect s).1

/-- List of participant ids of the roster. -/
def rosterIds (s : ChatState) : List String :=
  s.participants.map Participant.id

/-- Decimal value of a digit character. -/
def digitVal (c : Char) : Nat :=
  c.toNat - 48

/-- Reference decimal representation of a natural number, most significant
digit first; used to reason about `Nat.repr`. -/
def rep10 (n : Nat) : List Char :=
  if h : n < 10 then [Nat.digitChar n]
  else rep10 (n / 10) ++ [Nat.digitChar (n % 10)]
decreasing_by exact Nat.div_lt_self (by omega) (by omega)

/-- Concrete local log used to witness C2. -/
def c2LogA : List Message :=
  [{ id := "a", sender := "X", senderId := "px", content := "one", timestamp := 5 }]

/-- Concrete backfill payload used to witness C2. -/
def c2LogB : List Message :=
  [{ id := "b", sender := "Y", senderId := "py", content := "two", timestamp := 3 }]

/-- Roster of a freshly joined client (itself only), used for C3. -/
def c3JoinerRoster : List Participant :=
  [{ id := "joiner-addr", username := "Y", isConnected := true }]

/-- Concrete state used to witness C4, C8, C9 and C10: one remote roster
entry, one open connection. -/
def cState : ChatState :=
  { username := "X"
    message := "hi"
    messages := []
    participants := [{ id := "addr-x", username := "X", isConnected := true },
                     { id := "addr-y", username := "Y", isConnected := true }]
    connections := [{ peerAddr := "addr-y", isOpen := true }]
    peerId := "addr-x"
    isConnected := true
    hasPeer := true
    peerDestroyed := false
    lastActivityTime := 10 }

/-- A live NEW_MESSAGE payload used for C5. -/
def c5Msg : Message :=
  { id := "m1", sender := "Y", senderId := "addr-y", content := "hi", timestamp := 50 }

/-- Concrete state for C10: whitespace-only draft. -/
def c10State : ChatState :=
  { cState with message := "   " }

end ChatP2P

namespace ChatP2P

theorem msgLe_trans : ∀ a b c : Message, msgLe a b → msgLe b c → msgLe a c := by
  intro a b c hab hbc
  simp only [msgLe, decide_eq_true_eq] at *
  omega

theorem msgLe_total : ∀ a b : Message, msgLe a b || msgLe b a := by
  intro a b
  simp only [msgLe, Bool.or_eq_true, decide_eq_true_eq]
  omega

theorem hasMsgId_of_mem {l : List Message} {m : Message}
    (h : m ∈ l) : hasMsgId l m.id = true := by
  simp only [hasMsgId, List.any_eq_true]
  exact ⟨m, h, by simp⟩

theorem hasParticipantId_of_mem {l : List Participant} {p : Participant}
    (h : p ∈ l) : hasParticipantId l p.id = true := by
  simp only [hasParticipantId, List.any_eq_true]
  exact ⟨p, h, by simp⟩

theorem exists_of_hasMsgId {l : List Message} {x : String}
    (h : hasMsgId l x = true) : ∃ m ∈ l, m.id = x := by
  simp only [hasMsgId, List.any_eq_true, beq_iff_eq] at h
  exact h

theorem mem_logIds {l : List Message} {x : String} :
    x ∈ logIds l ↔ ∃ m ∈ l, m.id = x := by
  simp [logIds, eq_comm]

/-- After one application of the INIT_MESSAGES branch, every id of the
payload is present in the resulting log. -/
theorem initMessages_payload_present (msgs data : List Message) (m : Message)
    (hm : m ∈ data) :
    hasMsgId ((msgs ++ data.filter fun m2 => ! hasMsgId msgs m2.id).mergeSort msgLe)
      m.id = true := by
  by_cases hA : hasMsgId msgs m.id = true
  · obtain ⟨m2, hmem, hid⟩ := exists_of_hasMsgId hA
    apply hid ▸ hasMsgId_of_mem (l := _) (m := m2)
    rw [List.mem_mergeSort]
    exact List.mem_append_left _ hmem
  · apply hasMsgId_of_mem
    rw [List.mem_mergeSort]
    refine List.mem_append_right _ (List.mem_filter.mpr ⟨hm, ?_⟩)
    simp [hA]

/-- C1.  Idempotence of the frame handler: applying the same frame twice to
the same local state (message log and roster) yields the same state as
applying it once.  Covers the `USER_INFO`, `INIT_MESSAGES`,
`INIT_PARTICIPANTS` and `NEW_MESSAGE` cases (and trivially the ignored
default case). -/
theorem handlePeerData_idempotent (peerId : String) (f : Frame)
    (msgs : List Message) (ps : List Participant) :
    handlePeerData peerId f (handlePeerData peerId f msgs ps).1
        (handlePeerData peerId f msgs ps).2
      = handlePeerData peerId f msgs ps := by
  cases f with
  | userInfo i u =>
    by_cases h : hasParticipantId ps i = true
    · simp [handlePeerData, h]
    · have h2 : hasParticipantId
          (ps ++ [{ id := i, username := u, isConnected := true }]) i = true := by
        simpa using
          hasParticipantId_of_mem (p := { id := i, username := u, isConnected := true })
            (List.mem_append_right _ (List.mem_singleton.mpr rfl))
      simp [handlePeerData, h, h2]
  | initMessages data =>
    simp only [handlePeerData]
    have hempty :
        (data.filter fun m => ! hasMsgId
            ((msgs ++ data.filter fun m2 => ! hasMsgId msgs m2.id).mergeSort msgLe)
            m.id) = [] := by
      rw [List.filter_eq_nil_iff]
      intro m hm
      simp [initMessages_payload_present msgs data m hm]
    rw [hempty, List.append_nil,
      List.mergeSort_of_sorted (List.sorted_mergeSort msgLe_trans msgLe_total _)]
  | initParticipants data =>
    simp only [handlePeerData]
    have hempty :
        (data.filter fun p => ! hasParticipantId
            (ps ++ data.filter fun q => ! hasParticipantId ps q.id) p.id) = [] := by
      rw [List.filter_eq_nil_iff]
      intro p hp
      by_cases hA : hasParticipantId ps p.id = true
      · obtain ⟨q, hq, hid⟩ : ∃ q ∈ ps, q.id = p.id := by
          simpa only [hasParticipantId, List.any_eq_true, beq_iff_eq] using hA
        simp [hid ▸ hasParticipantId_of_mem (List.mem_append_left _ hq)]
      · have : p ∈ ps ++ data.filter fun q => ! hasParticipantId ps q.id := by
          refine List.mem_append_right _ (List.mem_filter.mpr ⟨hp, ?_⟩)
          simp [hA]
        simp [hasParticipantId_of_mem this]
    rw [hempty, List.append_nil]
  | newMessage m =>
    by_cases h : hasMsgId msgs m.id = true
    · simp [handlePeerData, h]
    · have h2 : hasMsgId ((msgs ++ [m]).mergeSort msgLe) m.id = true := by
        apply hasMsgId_of_mem
        rw [List.mem_mergeSort]
        exact List.mem_append_right _ (List.mem_singleton.mpr rfl)
      simp [handlePeerData, h, h2]
  | unknown => rfl

/-- C2.  Merge completeness of the INIT_MESSAGES backfill: merging payload B
into local log A yields a log whose ids are exactly the union of the ids of A
and B, still duplicate-free, and sorted by non-decreasing timestamp with ties
broken stably by insertion order.  Stability is stated as: restricted to any
fixed timestamp, the result equals the insertion-ordered concatenation (A's
entries in their order, then the surviving B entries in B's order) restricted
to that timestamp — so the sort never reorders equal-timestamp entries. -/
theorem initMessages_merge_union (peerId : String) (A B : List Message)
    (ps : List Participant)
    (hA : (logIds A).Nodup) (hB : (logIds B).Nodup) :
    (logIds (handlePeerData peerId (.initMessages B) A ps).1).Nodup
    ∧ (∀ i, i ∈ logIds (handlePeerData peerId (.initMessages B) A ps).1 ↔
        i ∈ logIds A ∨ i ∈ logIds B)
    ∧ (handlePeerData peerId (.initMessages B) A ps).1.Pairwise
        (fun a b => a.timestamp ≤ b.timestamp)
    ∧ (∀ t : Nat, (handlePeerData peerId (.initMessages B) A ps).1.filter
          (fun m => m.timestamp == t)
        = (A ++ B.filter fun m => ! hasMsgId A m.id).filter
          (fun m => m.timestamp == t)) := by
  simp only [handlePeerData]
  have hperm : List.Perm ((A ++ B.filter fun m => ! hasMsgId A m.id).mergeSort msgLe)
      (A ++ B.filter fun m => ! hasMsgId A m.id) := List.mergeSort_perm _ _
  have hpermIds :
      List.Perm (logIds ((A ++ B.filter fun m => ! hasMsgId A m.id).mergeSort msgLe))
        (logIds A ++ logIds (B.filter fun m => ! hasMsgId A m.id)) := by
    simpa [logIds] using hperm.map Message.id
  have hFB : (B.filter fun m => ! hasMsgId A m.id).Sublist B := List.filter_sublist _
  refine ⟨?_, ?_, ?_, ?_⟩
  · rw [hpermIds.nodup_iff]
    refine List.Nodup.append hA ?_ ?_
    · have : List.Sublist (logIds (B.filter fun m => ! hasMsgId A m.id)) (logIds B) :=
        hFB.map Message.id
      exact hB.sublist this
    · intro x hxA hxF
      obtain ⟨m, hmF, hid⟩ := mem_logIds.mp hxF
      have hflt := (List.mem_filter.mp hmF).2
      rw [Bool.not_eq_true'] at hflt
      obtain ⟨m', hm'A, hid'⟩ := mem_logIds.mp hxA
      have : hasMsgId A m.id = true := by
        simp only [hasMsgId, List.any_eq_true, beq_iff_eq]
        exact ⟨m', hm'A, by rw [hid', hid]⟩
      simp [this] at hflt
  · intro i
    rw [hpermIds.mem_iff, List.mem_append]
    constructor
    · rintro (h | h)
      · exact Or.inl h
      · obtain ⟨m, hmF, hid⟩ := mem_logIds.mp h
        exact Or.inr (mem_logIds.mpr ⟨m, hFB.mem hmF, hid⟩)
    · rintro (h | h)
      · exact Or.inl h
      · by_cases hiA : i ∈ logIds A
        · exact Or.inl hiA
        · obtain ⟨m, hmB, hid⟩ := mem_logIds.mp h
          refine Or.inr (mem_logIds.mpr ⟨m, List.mem_filter.mpr ⟨hmB, ?_⟩, hid⟩)
          rw [Bool.not_eq_eq_eq_not, Bool.not_true]
          rcases Bool.eq_false_or_eq_true (hasMsgId A m.id) with ht | hf
          · obtain ⟨m', hm'A, hid'⟩ := exists_of_hasMsgId ht
            exact absurd (mem_logIds.mpr ⟨m', hm'A, by rw [hid', hid]⟩) hiA
          · exact hf
  · have := List.sorted_mergeSort msgLe_trans msgLe_total
      (A ++ B.filter fun m => ! hasMsgId A m.id)
    exact this.imp fun h => by simpa [msgLe] using h
  · intro t
    have hc : ((A ++ B.filter fun m => ! hasMsgId A m.id).filter
        (fun m => m.timestamp == t)).Pairwise (fun a b => msgLe a b = true) := by
      apply List.pairwise_of_forall_mem_list
      intro x hx y hy
      have hxt := (List.mem_filter.mp hx).2
      have hyt := (List.mem_filter.mp hy).2
      rw [beq_iff_eq] at hxt hyt
      simp [msgLe, hxt, hyt]
    have hsub := List.sublist_mergeSort msgLe_trans msgLe_total hc
      (List.filter_sublist _)
    have hfe : ((A ++ B.filter fun m => ! hasMsgId A m.id).filter
          (fun m => m.timestamp == t)).filter (fun m => m.timestamp == t)
        = (A ++ B.filter fun m => ! hasMsgId A m.id).filter
          (fun m => m.timestamp == t) := by
      rw [List.filter_eq_self]
      intro a ha
      exact (List.mem_filter.mp ha).2
    have hsub2 : List.Sublist
        ((A ++ B.filter fun m => ! hasMsgId A m.id).filter (fun m => m.timestamp == t))
        (((A ++ B.filter fun m => ! hasMsgId A m.id).mergeSort msgLe).filter
          (fun m => m.timestamp == t)) := by
      have := hsub.filter (fun m => m.timestamp == t)
      rwa [hfe] at this
    have hperm2 : List.Perm
        (((A ++ B.filter fun m => ! hasMsgId A m.id).mergeSort msgLe).filter
          (fun m => m.timestamp == t))
        ((A ++ B.filter fun m => ! hasMsgId A m.id).filter (fun m => m.timestamp == t)) :=
      (List.mergeSort_perm _ _).filter _
    exact (hsub2.eq_of_length hperm2.length_eq.symm).symm

theorem initMessages_merge_union_witness :
    (logIds c2LogA).Nodup ∧ (logIds c2LogB).Nodup ∧
    ((logIds (handlePeerData "py" (.initMessages c2LogB) c2LogA []).1).Nodup
      ∧ (∀ i, i ∈ logIds (handlePeerData "py" (.initMessages c2LogB) c2LogA []).1 ↔
          i ∈ logIds c2LogA ∨ i ∈ logIds c2LogB)
      ∧ (handlePeerData "py" (.initMessages c2LogB) c2LogA []).1.Pairwise
          (fun a b => a.timestamp ≤ b.timestamp)
      ∧ (∀ t : Nat, (handlePeerData "py" (.initMessages c2LogB) c2LogA []).1.filter
            (fun m => m.timestamp == t)
          = (c2LogA ++ c2LogB.filter fun m => ! hasMsgId c2LogA m.id).filter
            (fun m => m.timestamp == t))) :=
  ⟨by decide, by decide,
    initMessages_merge_union "py" c2LogA c2LogB [] (by decide) (by decide)⟩

/-- C3.  Contrary to the claim that only the dialed peer sends the backfill,
the joiner's own `open` handler also emits INIT_MESSAGES and
INIT_PARTICIPANTS: `joinRoom()` tags its outbound connection with
`metadata.joinRoom = true`, the transport keeps that metadata on the
originating connection object, and `handleConnection` is registered on it
(line 138), so `conn.metadata?.joinRoom` is true at the joiner's end as
well.  Here a fresh joiner (empty log, roster containing only itself)
dials the anchor: the frames it sends on open include the two backfill
frames. -/
theorem joiner_open_sends_backfill :
    onOpenFrames joinRequestMetadataJoinRoom "joiner-addr" "Y" [] c3JoinerRoster
      = [Frame.userInfo "joiner-addr" "Y",
         Frame.initMessages [],
         Frame.initParticipants c3JoinerRoster] := rfl

theorem markDisconnected_map_eq_of_forall_ne (ps : List Participant)
    (addr : String) (h : ∀ q ∈ ps, q.id ≠ addr) :
    (ps.map fun q => if q.id = addr then { q with isConnected := false } else q)
      = ps := by
  induction ps with
  | nil => rfl
  | cons q rest ih =>
    have hq : q.id ≠ addr := h q (List.mem_cons_self q rest)
    simp only [List.map_cons, if_neg hq, List.cons.injEq, true_and]
    exact ih fun p hp => h p (List.mem_cons_of_mem _ hp)

/-- Under roster-id uniqueness, the first-match update of the close handler
coincides with flagging every entry whose id matches. -/
theorem markDisconnected_eq_map (ps : List Participant) (addr : String)
    (h : (ps.map Participant.id).Nodup) :
    markDisconnected ps addr
      = ps.map fun q => if q.id = addr then { q with isConnected := false } else q := by
  induction ps with
  | nil => rfl
  | cons q rest ih =>
    rw [List.map_cons, List.nodup_cons] at h
    by_cases hq : q.id = addr
    · have hrest : ∀ p ∈ rest, p.id ≠ addr := by
        intro p hp hpe
        exact h.1 (hq ▸ hpe ▸ List.mem_map_of_mem Participant.id hp)
      rw [markDisconnected]
      simp only [hq, beq_self_eq_true, if_true, List.map_cons, if_pos rfl]
      rw [markDisconnected_map_eq_of_forall_ne rest addr hrest]
    · rw [markDisconnected]
      have : (q.id == addr) = false := by simpa using hq
      simp only [this, Bool.false_eq_true, if_false, List.map_cons, if_neg hq]
      rw [ih h.2]

/-- C4.  Effect of a close event on the channel to peer address `p`: the
channel entry for `p` (and nothing else) leaves the active connection set,
and — assuming roster-id uniqueness — the roster entry with id `p` has its
`isConnected` flag cleared while its id and username are kept, every other
entry is untouched, and no entry is removed (the roster keeps its length).
The message log is untouched. -/
theorem close_event_effect (s : ChatState) (p : String)
    (h : (s.participants.map Participant.id).Nodup) :
    (∀ c ∈ (closeHandler s p).connections, c.peerAddr ≠ p)
    ∧ (∀ c ∈ s.connections, c.peerAddr ≠ p → c ∈ (closeHandler s p).connections)
    ∧ (closeHandler s p).participants
        = s.participants.map (fun q => if q.id = p then { q with isConnected := false } else q)
    ∧ (closeHandler s p).participants.length = s.participants.length
    ∧ (closeHandler s p).messages = s.messages := by
  refine ⟨?_, ?_, ?_, ?_, rfl⟩
  · intro c hc
    have := (List.mem_filter.mp hc).2
    simpa using this
  · intro c hc hne
    refine List.mem_filter.mpr ⟨hc, ?_⟩
    simpa using hne
  · exact markDisconnected_eq_map s.participants p h
  · show (markDisconnected s.participants p).length = s.participants.length
    rw [markDisconnected_eq_map s.participants p h, List.length_map]

theorem close_event_effect_witness :
    (cState.participants.map Participant.id).Nodup
    ∧ ((∀ c ∈ (closeHandler cState "addr-y").connections, c.peerAddr ≠ "addr-y")
      ∧ (∀ c ∈ cState.connections, c.peerAddr ≠ "addr-y" →
          c ∈ (closeHandler cState "addr-y").connections)
      ∧ (closeHandler cState "addr-y").participants
          = cState.participants.map
              (fun q => if q.id = "addr-y" then { q with isConnected := false } else q)
      ∧ (closeHandler cState "addr-y").participants.length
          = cState.participants.length
      ∧ (closeHandler cState "addr-y").messages = cState.messages) :=
  ⟨by decide, close_event_effect cState "addr-y" (by decide)⟩

/-- C5.  The NEW_MESSAGE path does NOT update the session clock, contrary to
the claim: the handler mutates `messages.value` in place (`push` + `sort`),
which does not retrigger the shallow `watch(messages, ...)`, and the branch
itself never writes `lastActivityTime`.  Here a fresh live message arrives at
time 999 into a state whose clock reads 10: the log gains the message but the
clock still reads 10. -/
theorem newMessage_skips_session_clock :
    (receiveData cState "addr-y" (.newMessage c5Msg) 999).messages = [c5Msg]
    ∧ (receiveData cState "addr-y" (.newMessage c5Msg) 999).lastActivityTime = 10
    ∧ cState.lastActivityTime = 10 := by
  refine ⟨?_, rfl, rfl⟩
  simp [receiveData, handlePeerData, hasMsgId, cState]

/-- C6.  One poll of the timeout monitor leaves the state (in particular
`lastActivityTime`) untouched, and reports expiry exactly when the elapsed
time strictly exceeds the 15-minute threshold; the poll interval is the
fixed 60 seconds. -/
theorem timeout_poll_behavior (s : ChatState) (now : Nat) :
    (timeoutCheckTick s now).1 = s
    ∧ ((timeoutCheckTick s now).2 = true ↔ now - s.lastActivityTime > sessionTimeout)
    ∧ sessionTimeout = 15 * 60 * 1000
    ∧ timeoutCheckIntervalMs = 60000 :=
  ⟨rfl, by simp [timeoutCheckTick], rfl, rfl⟩

theorem digitVal_digitChar : ∀ d < 10, digitVal (Nat.digitChar d) = d := by decide

theorem toDigitsCore_eq_rep10 :
    ∀ (fuel n : Nat) (ds : List Char), n < fuel →
      Nat.toDigitsCore 10 fuel n ds = rep10 n ++ ds := by
  intro fuel
  induction fuel with
  | zero => intro n ds h; omega
  | succ fuel ih =>
    intro n ds h
    rw [Nat.toDigitsCore]
    by_cases h0 : n / 10 = 0
    · have h10 : n < 10 := by omega
      rw [if_pos h0, rep10]
      simp [Nat.mod_eq_of_lt h10, h10]
    · rw [if_neg h0, ih (n / 10) _ (by omega)]
      have h10 : ¬ n < 10 := by omega
      conv_rhs => rw [rep10]
      rw [dif_neg h10]
      simp

theorem decode_rep10 :
    ∀ n : Nat, (rep10 n).foldl (fun a c => 10 * a + digitVal c) 0 = n := by
  intro n
  induction n using Nat.strong_induction_on with
  | _ n ih =>
    rw [rep10]
    by_cases h : n < 10
    · simp [h, digitVal_digitChar n h]
    · rw [dif_neg h, List.foldl_append,
        ih (n / 10) (Nat.div_lt_self (by omega) (by omega))]
      simp only [List.foldl_cons, List.foldl_nil]
      have := digitVal_digitChar (n % 10) (by omega)
      omega

theorem rep10_inj {m n : Nat} (h : rep10 m = rep10 n) : m = n := by
  have hm := decode_rep10 m
  rw [h, decode_rep10 n] at hm
  exact hm.symm

theorem natRepr_inj {m n : Nat} (h : Nat.repr m = Nat.repr n) : m = n := by
  apply rep10_inj
  have hm : Nat.repr m = (rep10 m).asString := by
    simp only [Nat.repr, Nat.toDigits]
    rw [toDigitsCore_eq_rep10 (m + 1) m [] (Nat.lt_succ_self m), List.append_nil]
  have hn : Nat.repr n = (rep10 n).asString := by
    simp only [Nat.repr, Nat.toDigits]
    rw [toDigitsCore_eq_rep10 (n + 1) n [] (Nat.lt_succ_self n), List.append_nil]
  rw [hm, hn] at h
  exact congrArg String.data h

/-- C7 counterexample: two distinct invocations of `sendMessage` within the
same `Date.now()` millisecond build distinct Message records with EQUAL ids,
and the local log then holds two entries with the same id (`"addr-x-5"`):
the id `peerId + "-" + Date.now()` is only unique per millisecond, and
`sendMessage` pushes unconditionally. -/
theorem sendMessage_same_millisecond_collision :
    (mkLocalMessage "addr-x" "X" "hi" 5 ≠ mkLocalMessage "addr-x" "X" "again" 5
      ∧ (mkLocalMessage "addr-x" "X" "hi" 5).id
          = (mkLocalMessage "addr-x" "X" "again" 5).id)
    ∧ logIds ((sendMessage { (sendMessage cState 5).1 with message := "again" } 5).1.messages)
        = ["addr-x-5", "addr-x-5"] := by
  refine ⟨⟨by decide, rfl⟩, by decide⟩

/-- C7 (amended).  Message ids built by `sendMessage` at distinct
`Date.now()` values are distinct, whatever the usernames and contents: the
id is the local peer address, a dash, and the decimal send time, and the
decimal representation determines the time. -/
theorem mkLocalMessage_distinct_ids (pid u1 u2 c1 c2 : String) (t1 t2 : Nat)
    (h : t1 ≠ t2) :
    (mkLocalMessage pid u1 c1 t1).id ≠ (mkLocalMessage pid u2 c2 t2).id := by
  simp only [mkLocalMessage]
  intro he
  apply h
  apply natRepr_inj
  have hd := congrArg String.data he
  simp only [String.data_append] at hd
  exact String.ext (List.append_cancel_left hd)

theorem mkLocalMessage_distinct_ids_witness :
    (3 : Nat) ≠ 5
    ∧ (mkLocalMessage "addr-x" "X" "hi" 3).id ≠ (mkLocalMessage "addr-x" "X" "hi" 5).id :=
  ⟨by decide, mkLocalMessage_distinct_ids "addr-x" "X" "X" "hi" "hi" 3 5 (by decide)⟩

theorem markDisconnected_map_id (ps : List Participant) (addr : String) :
    (markDisconnected ps addr).map Participant.id = ps.map Participant.id := by
  induction ps with
  | nil => rfl
  | cons q rest ih =>
    rw [markDisconnected]
    by_cases hq : (q.id == addr) = true
    · simp [hq]
    · simp only [Bool.not_eq_true] at hq
      simp [hq, ih]

theorem handlePeerData_roster_superset (peerId : String) (f : Frame)
    (msgs : List Message) (ps : List Participant) (x : String)
    (hx : x ∈ ps.map Participant.id) :
    x ∈ (handlePeerData peerId f msgs ps).2.map Participant.id := by
  cases f with
  | userInfo i u =>
    simp only [handlePeerData]
    split
    · exact hx
    · rw [List.map_append]
      exact List.mem_append_left _ hx
  | initMessages data => exact hx
  | initParticipants data =>
    simp only [handlePeerData]
    rw [List.map_append]
    exact List.mem_append_left _ hx
  | newMessage m =>
    simp only [handlePeerData]
    split
    · exact hx
    · exact hx
  | unknown => exact hx

/-- C8.  Roster monotone retention: no core operation (receiving any frame,
a local send, a channel close, teardown) removes a participant id from the
roster; every id present before is present after. -/
theorem rosterIds_monotone (s : ChatState) (op : Op) (x : String)
    (hx : x ∈ rosterIds s) : x ∈ rosterIds (applyOp s op) := by
  cases op with
  | recv p f now =>
    exact handlePeerData_roster_superset p f s.messages s.participants x hx
  | send now =>
    simp only [applyOp, sendMessage]
    split
    · exact hx
    · exact hx
  | channelClose p =>
    show x ∈ (markDisconnected s.participants p).map Participant.id
    rw [markDisconnected_map_id]
    exact hx
  | teardown => exact hx

theorem rosterIds_monotone_witness :
    "addr-y" ∈ rosterIds cState
    ∧ "addr-y" ∈ rosterIds (applyOp cState (.channelClose "addr-y")) :=
  ⟨by decide, rosterIds_monotone cState (.channelClose "addr-y") "addr-y" (by decide)⟩

/-- C9.  Teardown is idempotent: after one completed `handleDisconnect`, a
second run leaves the state unchanged, calls `conn.close()` on no channel
and never calls `peer.destroy()`.  The first run closes each channel at most
once (the close list has no duplicates when the connection record's keys are
unique) and releases the transport identity exactly when one was live. -/
theorem handleDisconnect_idempotent (s : ChatState)
    (hkeys : (s.connections.map Conn.peerAddr).Nodup) :
    (handleDisconnect (handleDisconnect s).1).1 = (handleDisconnect s).1
    ∧ (handleDisconnect (handleDisconnect s).1).2.1 = []
    ∧ (handleDisconnect (handleDisconnect s).1).2.2 = false
    ∧ (handleDisconnect s).2.1.Nodup
    ∧ (handleDisconnect s).2.2 = (s.hasPeer && ! s.peerDestroyed) := by
  have hclosed : (s.connections.map fun c => { c with isOpen := false }).filter
      Conn.isOpen = [] := by
    rw [List.filter_eq_nil_iff]
    intro c hc
    obtain ⟨c', _, rfl⟩ := List.mem_map.mp hc
    simp
  have hmapmap : ((s.connections.map fun c => { c with isOpen := false }).map
      fun c => { c with isOpen := false })
        = s.connections.map fun c => { c with isOpen := false } := by
    rw [List.map_map]
    rfl
  refine ⟨?_, ?_, ?_, ?_, rfl⟩
  · cases hp : s.hasPeer <;> cases hd : s.peerDestroyed <;>
      simp [handleDisconnect, hp, hd, hmapmap]
  · simp [handleDisconnect, hclosed]
  · cases hp : s.hasPeer <;> cases hd : s.peerDestroyed <;>
      simp [handleDisconnect, hp, hd]
  · have hsub : List.Sublist ((s.connections.filter Conn.isOpen).map Conn.peerAddr)
        (s.connections.map Conn.peerAddr) := (List.filter_sublist _).map Conn.peerAddr
    exact hkeys.sublist hsub

theorem handleDisconnect_idempotent_witness :
    (cState.connections.map Conn.peerAddr).Nodup
    ∧ ((handleDisconnect (handleDisconnect cState).1).1 = (handleDisconnect cState).1
      ∧ (handleDisconnect (handleDisconnect cState).1).2.1 = []
      ∧ (handleDisconnect (handleDisconnect cState).1).2.2 = false
      ∧ (handleDisconnect cState).2.1.Nodup
      ∧ (handleDisconnect cState).2.2 = (cState.hasPeer && ! cState.peerDestroyed)) :=
  ⟨by decide, handleDisconnect_idempotent cState (by decide)⟩

/-- C10.  When the draft is empty or whitespace-only, or the local peer is
not connected, `sendMessage` is a complete no-op: the returned state is the
input state (same log, roster, connection set and `lastActivityTime`) and no
frame is sent to any peer. -/
theorem sendMessage_guard_noop (s : ChatState) (now : Nat)
    (h : (jsTrim s.message).isEmpty = true ∨ s.isConnected = false) :
    sendMessage s now = (s, []) := by
  rcases h with h | h <;> simp [sendMessage, h]

theorem sendMessage_guard_noop_witness :
    ((jsTrim c10State.message).isEmpty = true ∨ c10State.isConnected = false)
    ∧ sendMessage c10State 77 = (c10State, []) :=
  ⟨Or.inl (by decide), sendMessage_guard_noop c10State 77 (Or.inl (by decide))⟩

end ChatP2P
